import Mathlib

/-!
Verification development for the tsgw gateway (Go sources): shallow embedding
of the route lifecycle and request-serving engine, with theorems settling the
specification's claims about it.

Go strings are modelled either as Lean `String` (when the code iterates over
runes, which coincide with Lean `Char`) or as `List Nat` of bytes (when the
code indexes or slices raw bytes).  Go maps are modelled as association lists
together with lookup/insert/erase operations; map iteration order, which is
unspecified in Go, becomes an explicitly quantified list order.
-/

namespace TSGW

/-! ## Association-list operations modelling Go maps -/

/-- Lookup in an association list (Go `m[k]` read). -/
def getA {α β : Type} [DecidableEq α] : List (α × β) → α → Option β
  | [], _ => none
  | (k', v) :: t, k => if k' = k then some v else getA t k

/-- Insert-or-replace in an association list (Go `m[k] = v`). -/
def setA {α β : Type} [DecidableEq α] : List (α × β) → α → β → List (α × β)
  | [], k, v => [(k, v)]
  | (k', v') :: t, k, v => if k' = k then (k, v) :: t else (k', v') :: setA t k v

/-- Removal from an association list (Go `delete(m, k)`). -/
def eraseA {α β : Type} [DecidableEq α] (l : List (α × β)) (k : α) : List (α × β) :=
  l.filter (fun kv => kv.1 ≠ k)

/-! ## Byte-string helpers -/

/-- The UTF-8 encoding of one Unicode scalar value, as Go's `WriteRune` emits it. -/
def encodeChar (c : Char) : List Nat :=
  let n := c.toNat
  if n < 128 then [n]
  else if n < 2048 then [192 + n / 64, 128 + n % 64]
  else if n < 65536 then [224 + n / 4096, 128 + (n / 64) % 64, 128 + n % 64]
  else [240 + n / 262144, 128 + (n / 4096) % 64, 128 + (n / 64) % 64, 128 + n % 64]

/-- The UTF-8 byte sequence underlying a Go string value. -/
def utf8Bytes (s : String) : List Nat :=
  s.data.foldr (fun c acc => encodeChar c ++ acc) []

/-- Decimal digit characters of a positive natural (fuel-indexed helper). -/
def natDigitsAux : Nat → Nat → List Char
  | 0, _ => []
  | fuel + 1, n =>
    if n = 0 then [] else natDigitsAux fuel (n / 10) ++ [Char.ofNat (48 + n % 10)]

/-- Decimal rendering of a natural number (Go `strconv.Itoa` / `%d`). -/
def natToString (n : Nat) : String :=
  if n = 0 then "0" else String.mk (natDigitsAux n n)

/-- Model of Go `strings.HasPrefix`. -/
def goStartsWith (s pre : String) : Bool :=
  pre.data.isPrefixOf s.data

/-- Model of Go `strings.TrimSpace` (whitespace per `Char.isWhitespace`;
the inputs considered contain only ASCII whitespace, where the two agree). -/
def goTrimSpace (s : String) : String :=
  String.mk (((s.data.dropWhile Char.isWhitespace).reverse.dropWhile Char.isWhitespace).reverse)

/-- ASCII lowering of one character, the fragment of Go `strings.ToLower`
exercised by route names. -/
def asciiLowerChar (c : Char) : Char :=
  if 'A' ≤ c && c ≤ 'Z' then Char.ofNat (c.toNat + 32) else c

/-- Model of Go `strings.ToLower` restricted to ASCII letters. -/
def goToLower (s : String) : String :=
  String.mk (s.data.map asciiLowerChar)

/-! ## maskString (src/config.go lines 352-357)

`maskString` slices the raw bytes of its argument (`len(s)` and `s[:8]` in Go
count bytes), so it is modelled on byte lists. -/

/-- The three bytes of the literal "..." appended by `maskString`. -/
def dotsBytes : List Nat := [46, 46, 46]

/-- Model of `maskString` from src/config.go: show only the first 8 bytes. -/
def maskString (s : List Nat) : List Nat :=
  if s.length ≤ 8 then s else s.take 8 ++ dotsBytes

/-! ## Auth-key description sanitization (src/tailscale_authkey.go lines 37-47)

The Go loop `for _, r := range description` iterates over runes (Unicode
scalar values), which correspond exactly to Lean `Char`.  A kept rune is
written back via `WriteRune` (its UTF-8 bytes); a rejected rune is replaced
by the single byte `'_'`. -/

/-- The rune predicate of the sanitization loop in `createNewAuthKey`. -/
def isAllowedDescChar (c : Char) : Bool :=
  ('a' ≤ c && c ≤ 'z') || ('A' ≤ c && c ≤ 'Z') || ('0' ≤ c && c ≤ '9') ||
    c == ' ' || c == '-' || c == '_'

/-- The sanitization loop of `createNewAuthKey`: a string builder receiving,
per rune, either the rune itself or one underscore. -/
def sanitizeDescription (desc : String) : String :=
  String.mk (desc.data.foldl
    (fun acc r => acc ++ (if isAllowedDescChar r then [r] else ['_'])) [])

/-- The description template of `createNewAuthKey` before sanitization. -/
def descriptionTemplate (routeName : String) : String :=
  "Auth key for TSGW route: " ++ routeName

/-- The auth-key description written by `createNewAuthKey` for a route. -/
def authKeyDescription (routeName : String) : String :=
  sanitizeDescription (descriptionTemplate routeName)

/-- The byte-level sanitization map as the specification words it: each byte
in `[A-Za-z0-9 _-]` kept, every other byte replaced by `'_'` (byte 95).
Written from the spec sentence, for comparison with the rune-level code. -/
def isAllowedDescByte (b : Nat) : Bool :=
  (97 ≤ b && b ≤ 122) || (65 ≤ b && b ≤ 90) || (48 ≤ b && b ≤ 57) ||
    b == 32 || b == 45 || b == 95

/-- Byte-by-byte sanitization claimed by the specification. -/
def byteLevelSanitize (bs : List Nat) : List Nat :=
  bs.map (fun b => if isAllowedDescByte b then b else 95)

/-! ## Go net/url parsing, as used by NewRouteProxy (src/unnamed/part_006)

A model of the fragment of Go's `net/url.Parse` exercised by backend URLs:
scheme extraction (`getScheme`), rootless opaque URLs, query splitting, and
authority/host parsing with bracketed-host and port validation.  Userinfo and
percent-escape validation and the `ForceQuery` flag are not modelled; the
backend URLs considered contain neither escapes nor userinfo nor fragments,
and on such inputs the model agrees with `net/url.Parse`. -/

/-- Splits a char list at the first occurrence of `c` (Go `strings.Cut`):
returns the part before and the part after, the part after being empty when
`c` does not occur. -/
def cutChar : List Char → Char → List Char × List Char
  | [], _ => ([], [])
  | x :: t, c =>
    if x = c then ([], t)
    else
      let r := cutChar t c
      (x :: r.1, r.2)

/-- The char list following the last occurrence of `c`, or `none` when `c`
does not occur (Go `strings.LastIndex` followed by slicing). -/
def afterLast (l : List Char) (c : Char) : Option (List Char) :=
  if l.contains c then some ((l.reverse.takeWhile (fun x => x ≠ c)).reverse) else none

/-- Model of `net/url`'s `getScheme` loop.  `none` is the
"missing protocol scheme" error; `some none` means no scheme is present
(the caller keeps the whole input); `some (some (scheme, rest))` is a scheme
split at the first colon. -/
def goGetSchemeAux : List Char → List Char → Option (Option (String × String))
  | _, [] => some none
  | acc, c :: t =>
    if ('a' ≤ c && c ≤ 'z') || ('A' ≤ c && c ≤ 'Z') then goGetSchemeAux (acc ++ [c]) t
    else if ('0' ≤ c && c ≤ '9') || c == '+' || c == '-' || c == '.' then
      if acc.isEmpty then some none else goGetSchemeAux (acc ++ [c]) t
    else if c == ':' then
      if acc.isEmpty then none else some (some (String.mk acc, String.mk t))
    else some none

/-- Model of `net/url`'s `validOptionalPort`: empty, or a colon followed by
decimal digits only. -/
def validOptionalPort (p : List Char) : Bool :=
  match p with
  | [] => true
  | c :: t => c == ':' && t.all (fun d => '0' ≤ d && d ≤ '9')

/-- Model of `net/url`'s `parseHost` (escape-free hosts): a bracketed host
must contain a closing bracket followed by a valid optional port; otherwise
anything after the last colon must be a valid port. -/
def goParseHost (host : List Char) : Option (List Char) :=
  if host.head? = some '[' then
    match afterLast host ']' with
    | none => none
    | some after => if validOptionalPort after then some host else none
  else
    if host.contains ':' then
      match afterLast host ':' with
      | none => none
      | some after => if validOptionalPort (':' :: after) then some host else none
    else some host

/-- The result of `net/url.Parse`: the fields of Go's `url.URL` read by this
program (`Opaque` is modelled as `opq`). -/
structure GoURL where
  scheme : String := ""
  opq : String := ""
  host : String := ""
  path : String := ""
  rawQuery : String := ""
deriving DecidableEq

/-- Model of Go `url.Parse` (`viaRequest = false`) on escape-free, userinfo-free
inputs: fragment and query are split off, the scheme is extracted and
lowercased, a rootless remainder with a scheme becomes opaque, a rootless
remainder without a scheme is rejected when its first segment contains a
colon, and a `//`-led remainder has its authority's host validated. -/
def goURLParse (rawURL : String) : Option GoURL :=
  let u := (cutChar rawURL.data '#').1
  match goGetSchemeAux [] u with
  | none => none
  | some schemeRes =>
    let sp : List Char × List Char :=
      match schemeRes with
      | none => ([], u)
      | some (sch, rest) => (sch.data, rest.data)
    let scheme := goToLower (String.mk sp.1)
    let q := cutChar sp.2 '?'
    let rest1 := q.1
    let rawQuery := String.mk q.2
    if rest1.head? ≠ some '/' then
      if scheme ≠ "" then some { scheme := scheme, opq := String.mk rest1, rawQuery := rawQuery }
      else
        if (rest1.takeWhile (fun c => c ≠ '/')).contains ':' then none
        else some { scheme := scheme, path := String.mk rest1, rawQuery := rawQuery }
    else
      if rest1.take 2 = ['/', '/'] && (scheme ≠ "" || rest1.take 3 ≠ ['/', '/', '/']) then
        let afterSlashes := rest1.drop 2
        let authority := afterSlashes.takeWhile (fun c => c ≠ '/')
        let rest2 := afterSlashes.dropWhile (fun c => c ≠ '/')
        let hostPart :=
          if authority.contains '@' then (afterLast authority '@').getD [] else authority
        match goParseHost hostPart with
        | none => none
        | some h =>
          some { scheme := scheme, host := String.mk h, path := String.mk rest2,
                 rawQuery := rawQuery }
      else some { scheme := scheme, path := String.mk rest1, rawQuery := rawQuery }

/-! ## Config and RouteProxy (src/config.go, src/unnamed/part_006) -/

/-- The configuration fields consumed by the embedded operations
(src/config.go `Config`; `RequestTimeout` is a Go `time.Duration`,
an `int64` count of nanoseconds). -/
structure Config where
  requestTimeout : Int := 0
deriving DecidableEq

/-- The `RouteProxy` value built by `NewRouteProxy` (src/unnamed/part_006):
the fields relevant to the embedded behavior. -/
structure RouteProxy where
  routeName : String
  backendURL : String
  targetURL : GoURL
  requestTimeout : Int
deriving DecidableEq

/-- Model of `NewRouteProxy` (src/unnamed/part_006 lines 22-61): rejects a nil
config, parses the backend URL (failing fast on malformed URLs), and otherwise
builds the proxy.  No scheme check occurs here. -/
def NewRouteProxy (routeName backendURL : String) (cfg : Option Config) :
    Except String RouteProxy :=
  match cfg with
  | none => Except.error "config is nil"
  | some c =>
    match goURLParse backendURL with
    | none => Except.error "parse backend URL"
    | some target =>
      Except.ok { routeName := routeName, backendURL := backendURL, targetURL := target,
                  requestTimeout := c.requestTimeout }

/-- Model of one iteration of the CLI `route` flag validation
(src/unnamed/part_003 lines 84-97): trim, duplicate check, scheme check,
lowercase, insert. -/
def cliValidateRouteEntry (rawName rawBackend : String)
    (routes : List (String × String)) : Except String (List (String × String)) :=
  let name := goTrimSpace rawName
  let backend := goTrimSpace rawBackend
  if (getA routes name).isSome then Except.error ("Duplicate route name: " ++ name)
  else if !(goStartsWith backend "http://" || goStartsWith backend "https://") then
    Except.error ("Backend URL must start with http:// or https:// for route: " ++ name)
  else Except.ok (setA routes (goToLower name) backend)

/-! ## Request contexts (RouteProxy.ServeHTTP, src/unnamed/part_006 lines 63-93) -/

/-- A Go `context.Context` as observed by the proxy: its deadline, a clock
reading in nanoseconds. -/
structure GoContext where
  deadline : Option Nat := none
deriving DecidableEq

/-- Model of `context.WithTimeout`: the derived context's deadline is
`now + timeout`, capped by the parent's earlier deadline. -/
def contextWithTimeout (parent : GoContext) (now timeout : Nat) : GoContext :=
  { deadline := some (match parent.deadline with
      | some d => min d (now + timeout)
      | none => now + timeout) }

/-- The context a request carries when `RouteProxy.ServeHTTP` hands it to the
underlying reverse proxy (which then dials upstream): lines 67-71 of
src/unnamed/part_006 wrap the request context iff the configured per-request
timeout is strictly positive. -/
def RouteProxy.requestContext (rp : RouteProxy) (reqCtx : GoContext) (now : Nat) :
    GoContext :=
  if 0 < rp.requestTimeout then contextWithTimeout reqCtx now rp.requestTimeout.toNat
  else reqCtx

/-! ## The shared redirect server (src/unnamed/part_003 lines 359-382) -/

/-- An HTTP request as the redirect handler sees it: method, the `Host`
header, and `r.URL.RequestURI()` (path plus query). -/
structure HTTPRequest where
  method : String := "GET"
  host : String := ""
  requestURI : String := "/"
deriving DecidableEq

/-- The response written by the redirect handler: status code and `Location`
header. -/
structure RedirectResponse where
  status : Nat
  location : String
deriving DecidableEq

/-- Model of the redirect handler installed by `newRedirectServer`: a pure
function of the single incoming request (the handler closes over no state). -/
def redirectHandler (r : HTTPRequest) : RedirectResponse :=
  let h := goTrimSpace r.host
  let h' := if h = "" then "localhost" else h
  { status := 308, location := "https://" ++ h' ++ r.requestURI }

/-! ## The responseRecorder (src/unnamed/part_005 lines 55-96)

The recorder's observable history is the sequence of `WriteHeader` and
`Write` calls the handler makes; a `Write` event carries the byte count the
underlying `ResponseWriter` reported as successfully written (`n` in
`n, err := rw.w.Write(p)`). -/

/-- One call a handler makes on the recorder. -/
inductive RecorderEvent where
  | writeHeader (code : Nat)
  | write (n : Nat)
deriving DecidableEq

/-- The recorder's fields `statusCode` and `bytes`. -/
structure RecorderState where
  statusCode : Nat := 0
  bytes : Nat := 0
deriving DecidableEq

/-- One step of the recorder: `WriteHeader` stores the code (unconditionally);
`Write` first defaults a zero status to 200, then adds the count written. -/
def recorderStep (st : RecorderState) : RecorderEvent → RecorderState
  | RecorderEvent.writeHeader c => { st with statusCode := c }
  | RecorderEvent.write n =>
    { statusCode := if st.statusCode = 0 then 200 else st.statusCode,
      bytes := st.bytes + n }

/-- The recorder state after a sequence of handler calls, from the zero
state a fresh `responseRecorder` starts in. -/
def recorderRun (evs : List RecorderEvent) : RecorderState :=
  evs.foldl recorderStep {}

/-- Code of the first `WriteHeader` event, if any (the claim's reading). -/
def firstWriteHeader : List RecorderEvent → Option Nat
  | [] => none
  | RecorderEvent.writeHeader c :: _ => some c
  | RecorderEvent.write _ :: t => firstWriteHeader t

/-- Code of the last `WriteHeader` event, if any. -/
def lastWriteHeader : List RecorderEvent → Option Nat
  | [] => none
  | RecorderEvent.writeHeader c :: t => some ((lastWriteHeader t).getD c)
  | RecorderEvent.write _ :: t => lastWriteHeader t

/-- Total bytes reported successfully written across all `Write` events. -/
def writeBytes : List RecorderEvent → Nat
  | [] => 0
  | RecorderEvent.writeHeader _ :: t => writeBytes t
  | RecorderEvent.write n :: t => n + writeBytes t

/-- Whether any `Write` event occurs. -/
def hasWrite : List RecorderEvent → Bool
  | [] => false
  | RecorderEvent.writeHeader _ :: t => hasWrite t
  | RecorderEvent.write _ :: _ => true

/-- The status the recorder ends with, as a function of the history and the
initial status field. -/
def expectedStatus (evs : List RecorderEvent) (init : Nat) : Nat :=
  match lastWriteHeader evs with
  | some c => c
  | none => if hasWrite evs then (if init = 0 then 200 else init) else init

/-! ## The tailscale serve config (tailscale.com/ipn, pinned by
TestBuildServicesServeConfig in src/tailscale_services_test.go)

Model of `ipn.ServeConfig` and its `SetWebHandler` restricted to service-name
hosts — the only case `buildServicesServeConfig` exercises, since it always
passes `svc:<route>` as the host.  The `HostPort` map key
`net.JoinHostPort(<route>.<suffix>, itoa(port))` is modelled as the pair
`(<route>.<suffix>, port)`, on which `JoinHostPort` is injective for DNS-name
hosts.  Map writes (`mak.Set`) replace any existing entry. -/

/-- `ipn.HTTPHandler`: the `Proxy` target. -/
structure HTTPHandler where
  proxy : String
deriving DecidableEq

/-- `ipn.TCPPortHandler`: TLS-terminating (`HTTPS`) or plain (`HTTP`). -/
structure TCPPortHandler where
  https : Bool := false
  http : Bool := false
deriving DecidableEq

/-- `ipn.WebServerConfig`: mount point to handler. -/
structure WebServerConfig where
  handlers : List (String × HTTPHandler) := []
deriving DecidableEq

/-- `ipn.ServiceConfig`: per-port TCP mode and per-host-port web config. -/
structure ServiceConfig where
  tcp : List (Nat × TCPPortHandler) := []
  web : List ((String × Nat) × WebServerConfig) := []
deriving DecidableEq

/-- `ipn.ServeConfig`: the services map and the ETag used for optimistic
concurrency. -/
structure ServeConfig where
  services : List (String × ServiceConfig) := []
  etag : String := ""
deriving DecidableEq

/-- `serviceNameForRoute` from src/unnamed/part_001: `svc:<route>`. -/
def serviceNameForRoute (routeName : String) : String := "svc:" ++ routeName

/-- `tailcfg.ServiceName.WithoutPrefix`: the service name with the leading
four characters `svc:` removed. -/
def serviceShortName (svcName : String) : String := String.mk (svcName.data.drop 4)

/-- Model of `(ipn.ServeConfig).SetWebHandler` for service-name hosts: ensure
the service entry, register the web handler under
`(<short>.<dnsSuffix>, port)` and mount, and set the port's TCP mode from
`useTLS`.  Non-service hosts are never passed by this program. -/
def setWebHandler (sc : ServeConfig) (handler : HTTPHandler) (host : String)
    (port : Nat) (mount : String) (useTLS : Bool) (dnsSuffix : String) : ServeConfig :=
  if goStartsWith host "svc:" then
    let svc := (getA sc.services host).getD {}
    let hp : String × Nat := (serviceShortName host ++ "." ++ dnsSuffix, port)
    let ws := (getA svc.web hp).getD {}
    let ws' : WebServerConfig := { handlers := setA ws.handlers mount handler }
    let tcpH : TCPPortHandler := if useTLS then { https := true } else { http := true }
    let svc' : ServiceConfig := { tcp := setA svc.tcp port tcpH, web := setA svc.web hp ws' }
    { sc with services := setA sc.services host svc' }
  else sc

/-- The body of `buildServicesServeConfig`'s loop for one route (src/unnamed/
part_001 lines 17-27). -/
def applyRouteServe (magicDNSSuffix redirectProxyURL : String)
    (httpPort httpsPort : Nat) (sc : ServeConfig) (rp : String × Nat) : ServeConfig :=
  let dnsName := serviceNameForRoute rp.1
  let proxyURL := "http://127.0.0.1:" ++ natToString rp.2
  let sc1 :=
    if httpPort ≠ 0 then
      setWebHandler sc ⟨redirectProxyURL⟩ dnsName httpPort "/" false magicDNSSuffix
    else sc
  if httpsPort ≠ 0 then
    setWebHandler sc1 ⟨proxyURL⟩ dnsName httpsPort "/" true magicDNSSuffix
  else sc1

/-- Model of `buildServicesServeConfig` (src/unnamed/part_001 lines 14-30).
The Go map `routeToLocalPort` is modelled as a key-distinct list in an
arbitrary iteration order. -/
def buildServicesServeConfig (routeToLocalPort : List (String × Nat))
    (magicDNSSuffix redirectProxyURL : String) (httpPort httpsPort : Nat) : ServeConfig :=
  routeToLocalPort.foldl
    (applyRouteServe magicDNSSuffix redirectProxyURL httpPort httpsPort) {}

/-- The service entry `buildServicesServeConfig` produces for one route when
the HTTP and HTTPS ports differ: TLS-off redirect handler on the HTTP port
(when nonzero) and TLS-terminated loopback proxy on the HTTPS port (when
nonzero). -/
def routeServiceEntry (magicDNSSuffix redirectProxyURL : String)
    (httpPort httpsPort : Nat) (rp : String × Nat) : Option ServiceConfig :=
  let hostDNS := rp.1 ++ "." ++ magicDNSSuffix
  let proxyURL := "http://127.0.0.1:" ++ natToString rp.2
  if httpsPort ≠ 0 then
    if httpPort ≠ 0 then
      some { tcp := [(httpPort, { http := true }), (httpsPort, { https := true })],
             web := [((hostDNS, httpPort), { handlers := [("/", ⟨redirectProxyURL⟩)] }),
                     ((hostDNS, httpsPort), { handlers := [("/", ⟨proxyURL⟩)] })] }
    else
      some { tcp := [(httpsPort, { https := true })],
             web := [((hostDNS, httpsPort), { handlers := [("/", ⟨proxyURL⟩)] })] }
  else
    if httpPort ≠ 0 then
      some { tcp := [(httpPort, { http := true })],
             web := [((hostDNS, httpPort), { handlers := [("/", ⟨redirectProxyURL⟩)] })] }
    else none

/-- The proxy target registered for a service at a host-port and mount. -/
def svcWebProxy (sc : ServeConfig) (svcName : String) (hp : String × Nat)
    (mount : String) : Option String :=
  match getA sc.services svcName with
  | none => none
  | some svc =>
    match getA svc.web hp with
    | none => none
    | some ws =>
      match getA ws.handlers mount with
      | none => none
      | some h => some h.proxy

/-- The TCP mode registered for a service at a port. -/
def svcTCP (sc : ServeConfig) (svcName : String) (port : Nat) : Option TCPPortHandler :=
  match getA sc.services svcName with
  | none => none
  | some svc => getA svc.tcp port

/-- Whether any handler anywhere in the config proxies to the given URL. -/
def anyHandlerWithProxy (sc : ServeConfig) (url : String) : Bool :=
  sc.services.any (fun kv =>
    kv.2.web.any (fun wv => wv.2.handlers.any (fun hv => hv.2.proxy = url)))

/-- Whether any port anywhere in the config is registered in plain-HTTP
(TLS-off) mode. -/
def hasAnyPlainHTTP (sc : ServeConfig) : Bool :=
  sc.services.any (fun kv => kv.2.tcp.any (fun tv => tv.2.http))

/-! ## The control plane seen through the localClient interface
(src/tailscale_localclient.go)

The gateway's reconciliation reads and writes two pieces of control-plane
state: the `AdvertiseServices` preference list and the serve config.  The
pure model carries both; each operation returns the new state together with
Boolean flags recording whether it issued an `EditPrefs` write and whether it
issued a `SetServeConfig` write. -/

/-- Control-plane state: advertised service names and the stored serve
config (`none` models a nil or unavailable config). -/
structure ControlPlane where
  advertiseServices : List String := []
  serve : Option ServeConfig := none
deriving DecidableEq

/-- Ordered insertion of a string into a sorted duplicate-free list,
skipping an element already present. -/
def insStr (a : String) : List String → List String
  | [] => [a]
  | b :: t => if a < b then a :: b :: t else if a = b then b :: t else b :: insStr a t

/-- The sorted duplicate-free list of a list's elements: the canonical form
of "collect into a Go map, take the keys, `sort.Strings`"
(src/unnamed/part_007 lines 19-31). -/
def canonSorted (l : List String) : List String := l.foldr insStr []

/-- Model of `ensureAdvertiseServices` (src/unnamed/part_007 lines 13-49):
merge the existing advertised names with the desired ones into a sorted
deduplicated list; write via EditPrefs only when it differs from the current
list (`equalStringSlices` short-circuit). -/
def ensureAdvertiseServices (cp : ControlPlane) (desired : List String) :
    ControlPlane × Bool :=
  let merged := canonSorted (cp.advertiseServices ++ desired)
  if merged = cp.advertiseServices then (cp, false)
  else ({ cp with advertiseServices := merged }, true)

/-- Model of `removeAdvertiseServices` (src/unnamed/part_007 lines 51-86):
keep every advertised name not in the removal set, in order; write via
EditPrefs only when something was removed. -/
def removeAdvertiseServices (cp : ControlPlane) (toRemove : List String) :
    ControlPlane × Bool :=
  let kept := cp.advertiseServices.filter (fun s => decide (s ∉ toRemove))
  if kept = cp.advertiseServices then (cp, false)
  else ({ cp with advertiseServices := kept }, true)

/-- ETag carry-over of `applyTailscaleServeConfig` lines 470-472: copy the
current config's ETag into the new one when a current config exists. -/
def withETag (sc : ServeConfig) (cur : Option ServeConfig) : ServeConfig :=
  match cur with
  | some c => { sc with etag := c.etag }
  | none => sc

/-- Model of `applyTailscaleServeConfig` (src/unnamed/part_003 lines
456-478): run `ensureAdvertiseServices`, rebuild the serve config, copy the
ETag, and always issue `SetServeConfig`.  The returned flags are (EditPrefs
written, SetServeConfig written). -/
def applyTailscaleServeConfig (cp : ControlPlane) (serviceNames : List String)
    (routePorts : List (String × Nat)) (magicSuffix redirectURL : String)
    (httpPort httpsPort : Nat) : ControlPlane × Bool × Bool :=
  let r1 := ensureAdvertiseServices cp serviceNames
  let newSC := withETag
    (buildServicesServeConfig routePorts magicSuffix redirectURL httpPort httpsPort)
    r1.1.serve
  ({ r1.1 with serve := some newSC }, r1.2, true)

/-- The delete loop of `bestEffortCleanupServeConfig` lines 488-496: delete
each of the gateway's service keys that is present, tracking whether
anything changed. -/
def cleanupLoop (serviceNames : List String) (svcs : List (String × ServiceConfig)) :
    List (String × ServiceConfig) × Bool :=
  serviceNames.foldl
    (fun acc sn => if (getA acc.1 sn).isSome then (eraseA acc.1 sn, true) else acc)
    (svcs, false)

/-- Model of `bestEffortCleanupServeConfig` (src/unnamed/part_003 lines
480-500): remove the gateway's advertised names, then delete the gateway's
service entries from the serve config, writing it back only when at least
one was present.  Flags as in `applyTailscaleServeConfig`. -/
def bestEffortCleanupServeConfig (cp : ControlPlane) (serviceNames : List String) :
    ControlPlane × Bool × Bool :=
  let r1 := removeAdvertiseServices cp serviceNames
  match r1.1.serve with
  | none => (r1.1, r1.2, false)
  | some cur =>
    let res := cleanupLoop serviceNames cur.services
    if res.2 then
      ({ r1.1 with serve := some { cur with services := res.1 } }, r1.2, true)
    else (r1.1, r1.2, false)

/-! ## buildRouteRuntimes (src/unnamed/part_003 lines 384-427)

The environment's responses are data: for each route, whether `NewRouteProxy`
succeeds, and whether `net.Listen` succeeds and with what port and address
type.  The network state tracks which loopback listeners have been opened and
which have been closed; `buildRouteRuntimes` never closes a listener except
the one whose address type check fails (line 401). -/

/-- The outcome of `net.Listen("tcp", "127.0.0.1:0")` for one route: an open
listener with an ephemeral port whose address is or is not a `*net.TCPAddr`,
or a failure. -/
inductive ListenResult where
  | ok (port : Nat) (isTCP : Bool)
  | err
deriving DecidableEq

/-- One route's name together with the environment's responses for it. -/
structure RouteEnv where
  name : String
  proxyOk : Bool
  listen : ListenResult
deriving DecidableEq

/-- Listeners opened and closed so far, in order. -/
structure NetState where
  opened : List (String × Nat) := []
  closed : List (String × Nat) := []
deriving DecidableEq

/-- Whether `buildRouteRuntimes` fails at this route. -/
def stepFails (e : RouteEnv) : Bool :=
  !e.proxyOk ||
    (match e.listen with
     | ListenResult.err => true
     | ListenResult.ok _ isTCP => !isTCP)

/-- The loop of `buildRouteRuntimes`: create the proxy, listen on loopback,
check the address type (closing only that just-opened listener on a type
mismatch), and accumulate the runtimes (name and port). -/
def buildRouteRuntimesGo : List RouteEnv → NetState → List (String × Nat) →
    NetState × Except String (List (String × Nat))
  | [], st, acc => (st, Except.ok acc)
  | e :: rest, st, acc =>
    if e.proxyOk = false then
      (st, Except.error ("route " ++ e.name ++ ": create proxy"))
    else
      match e.listen with
      | ListenResult.err =>
        (st, Except.error ("route " ++ e.name ++ ": listen localhost"))
      | ListenResult.ok port isTCP =>
        let st' : NetState := { st with opened := st.opened ++ [(e.name, port)] }
        if isTCP = false then
          ({ st' with closed := st'.closed ++ [(e.name, port)] },
           Except.error ("route " ++ e.name ++ ": unexpected listener addr type"))
        else buildRouteRuntimesGo rest st' (acc ++ [(e.name, port)])

/-- Model of `buildRouteRuntimes`, started with no listeners open: the final
network state and either the runtimes or the first error. -/
def buildRouteRuntimes (steps : List RouteEnv) :
    NetState × Except String (List (String × Nat)) :=
  buildRouteRuntimesGo steps {} []

end TSGW

namespace TSGW

/-! ## Theorems -/

theorem getA_setA_same {α β : Type} [DecidableEq α] (l : List (α × β)) (k : α) (v : β) :
    getA (setA l k v) k = some v := by
  induction l with
  | nil => simp [setA, getA]
  | cons kv t ih =>
    obtain ⟨k', v'⟩ := kv
    by_cases h : k' = k
    · simp [setA, h, getA]
    · simp [setA, h, getA, ih]

theorem getA_setA_ne {α β : Type} [DecidableEq α] (l : List (α × β)) (k k' : α) (v : β)
    (h : k ≠ k') : getA (setA l k v) k' = getA l k' := by
  induction l with
  | nil => simp [setA, getA, h]
  | cons kv t ih =>
    obtain ⟨k'', v''⟩ := kv
    by_cases h2 : k'' = k
    · subst h2
      simp [setA, getA, h]
    · simp [setA, h2, getA, ih]

theorem mem_setA {α β : Type} [DecidableEq α] (l : List (α × β)) (k : α) (v : β)
    (x : α × β) (hx : x ∈ setA l k v) : x ∈ l ∨ x = (k, v) := by
  induction l with
  | nil => simpa [setA] using hx
  | cons kv t ih =>
    obtain ⟨k', v'⟩ := kv
    by_cases h : k' = k
    · simp only [setA, if_pos h] at hx
      rcases List.mem_cons.mp hx with h1 | h1
      · exact Or.inr h1
      · exact Or.inl (List.mem_cons_of_mem _ h1)
    · simp only [setA, if_neg h] at hx
      rcases List.mem_cons.mp hx with h1 | h1
      · exact Or.inl (h1 ▸ List.mem_cons_self _ _)
      · rcases ih h1 with h2 | h2
        · exact Or.inl (List.mem_cons_of_mem _ h2)
        · exact Or.inr h2

theorem foldl_sanitize (l acc : List Char) :
    l.foldl (fun acc r => acc ++ (if isAllowedDescChar r then [r] else ['_'])) acc
      = acc ++ l.map (fun c => if isAllowedDescChar c then c else '_') := by
  induction l generalizing acc with
  | nil => simp
  | cons c t ih =>
    simp only [List.foldl, ih, List.append_assoc, List.map]
    by_cases h : isAllowedDescChar c <;> simp [h]

/-- C9: maskString returns inputs of at most 8 bytes unchanged, and longer
inputs truncated to their first 8 bytes followed by "...". -/
theorem maskString_spec (s : List Nat) :
    (s.length ≤ 8 → maskString s = s) ∧
      (8 < s.length → maskString s = s.take 8 ++ dotsBytes) := by
  constructor
  · intro h; simp [maskString, h]
  · intro h; simp [maskString, Nat.not_le.mpr h]

/-- Witness for C9 at two concrete inputs, one short and one long. -/
theorem maskString_spec_witness :
    maskString [1, 2, 3] = [1, 2, 3] ∧
      maskString [1, 2, 3, 4, 5, 6, 7, 8, 9, 10]
        = [1, 2, 3, 4, 5, 6, 7, 8] ++ dotsBytes := by
  refine ⟨(maskString_spec [1, 2, 3]).1 (by decide), ?_⟩
  exact (maskString_spec [1, 2, 3, 4, 5, 6, 7, 8, 9, 10]).2 (by decide)

/-- C8 counterexample: for the route name "é" the description's bytes are not
the byte-by-byte image the claim describes — the two-byte rune collapses to a
single underscore, so the output has 26 bytes for 27 input bytes. -/
theorem authKeyDescription_not_bytewise :
    utf8Bytes (authKeyDescription "é")
        ≠ byteLevelSanitize (utf8Bytes (descriptionTemplate "é")) ∧
      (utf8Bytes (descriptionTemplate "é")).length = 27 ∧
      (utf8Bytes (authKeyDescription "é")).length = 26 := by
  decide

/-- C8 (amended): the sanitization maps each rune (Unicode code point) of the
template to itself when it lies in `[A-Za-z0-9 _-]` and to one underscore
otherwise — one output rune per input rune (a multi-byte rejected rune yields
a single underscore byte, so byte counts can shrink). -/
theorem authKeyDescription_runemap (routeName : String) :
    (authKeyDescription routeName).data
        = (descriptionTemplate routeName).data.map
            (fun c => if isAllowedDescChar c then c else '_') ∧
      (authKeyDescription routeName).data.length
        = (descriptionTemplate routeName).data.length := by
  constructor
  · show ((descriptionTemplate routeName).data.foldl
        (fun acc r => acc ++ (if isAllowedDescChar r then [r] else ['_'])) []) = _
    rw [foldl_sanitize]
    simp
  · show ((descriptionTemplate routeName).data.foldl
        (fun acc r => acc ++ (if isAllowedDescChar r then [r] else ['_'])) []).length = _
    rw [foldl_sanitize]
    simp

/-- C4: if the configured per-request timeout is positive, the context the
proxy receives carries a deadline bounded by now plus that timeout; if the
timeout is exactly zero, the request context is passed through unchanged (no
deadline is attached). -/
theorem routeProxy_requestContext_spec (rp : RouteProxy) (c : GoContext) (now : Nat) :
    (0 < rp.requestTimeout →
        ∃ d, (rp.requestContext c now).deadline = some d ∧
          d ≤ now + rp.requestTimeout.toNat) ∧
      (rp.requestTimeout = 0 → rp.requestContext c now = c) := by
  constructor
  · intro h
    simp only [RouteProxy.requestContext, if_pos h, contextWithTimeout]
    cases hd : c.deadline with
    | none => exact ⟨now + rp.requestTimeout.toNat, by simp, le_refl _⟩
    | some d => exact ⟨min d (now + rp.requestTimeout.toNat), by simp, min_le_right _ _⟩
  · intro h
    simp [RouteProxy.requestContext, h]

/-- Witness for C4: a 30-second timeout attaches a deadline; a zero timeout
leaves the context untouched. -/
theorem routeProxy_requestContext_spec_witness :
    (∃ d, ((⟨"app", "http://b", {}, 30000000000⟩ : RouteProxy).requestContext {} 5).deadline
        = some d ∧ d ≤ 5 + (30000000000 : Int).toNat) ∧
      ((⟨"app", "http://b", {}, 0⟩ : RouteProxy).requestContext {} 5) = {} := by
  constructor
  · exact (routeProxy_requestContext_spec ⟨"app", "http://b", {}, 30000000000⟩ {} 5).1
      (by decide)
  · exact (routeProxy_requestContext_spec ⟨"app", "http://b", {}, 0⟩ {} 5).2 rfl

/-- C5 counterexample: the scheme-less backend URL "localhost:8080" parses
fine in Go (scheme "localhost", opaque "8080"), and NewRouteProxy accepts it
— the constructor performs no scheme check. -/
theorem NewRouteProxy_schemeless_accepted :
    (goStartsWith "localhost:8080" "http://"
        || goStartsWith "localhost:8080" "https://") = false ∧
      NewRouteProxy "app" "localhost:8080" (some { requestTimeout := 30 })
        = Except.ok ⟨"app", "localhost:8080",
            { scheme := "localhost", opq := "8080" }, 30⟩ := by
  constructor
  · decide
  · rfl

/-- C5 (amended): NewRouteProxy returns an error exactly for backend URLs
that fail to parse (and for a nil config); the `http://`/`https://` scheme
requirement is enforced earlier, by the CLI route-flag validation, which
rejects any backend lacking those schemes. -/
theorem NewRouteProxy_error_conditions (n backend : String) (c : Config)
    (routes : List (String × String)) :
    (goURLParse backend = none →
        NewRouteProxy n backend (some c) = Except.error "parse backend URL") ∧
      NewRouteProxy n backend none = Except.error "config is nil" ∧
      ((goURLParse backend).isSome →
        NewRouteProxy n backend (some c) ≠ Except.error "parse backend URL" ∧
          (NewRouteProxy n backend (some c)).isOk = true) ∧
      ((goStartsWith (goTrimSpace backend) "http://"
            || goStartsWith (goTrimSpace backend) "https://") = false →
        (getA routes (goTrimSpace n)).isSome = false →
        cliValidateRouteEntry n backend routes
          = Except.error
              ("Backend URL must start with http:// or https:// for route: "
                ++ goTrimSpace n)) := by
  refine ⟨fun h => ?_, rfl, fun h => ?_, fun hb hd => ?_⟩
  · simp [NewRouteProxy, h]
  · rcases Option.isSome_iff_exists.mp h with ⟨u, hu⟩
    simp [NewRouteProxy, hu, Except.isOk, Except.toBool]
  · simp [cliValidateRouteEntry, hb, hd]

/-- Witness for C5 (amended): "://x" fails to parse and is rejected;
"localhost:8080" is scheme-less, so the CLI validation rejects it while the
parse itself succeeds. -/
theorem NewRouteProxy_error_conditions_witness :
    NewRouteProxy "app" "://x" (some {}) = Except.error "parse backend URL" ∧
      cliValidateRouteEntry "app" "localhost:8080" []
        = Except.error
            "Backend URL must start with http:// or https:// for route: app" := by
  constructor
  · exact (NewRouteProxy_error_conditions "app" "://x" {} []).1 rfl
  · exact (NewRouteProxy_error_conditions "app" "localhost:8080" {} []).2.2.2
      (by decide) (by decide)

/-- C6: every request the redirect server receives (Go's HTTP server rejects
Host headers containing whitespace before a handler runs, hence the
trim-invariance hypothesis) gets status 308 and Location
`https://<Host><URI>`, with `localhost` replacing an empty Host; the response
does not depend on the method, and the handler holds no state. -/
theorem redirectHandler_spec (r : HTTPRequest) (hh : goTrimSpace r.host = r.host) :
    (redirectHandler r).status = 308 ∧
      (redirectHandler r).location
        = "https://" ++ (if r.host = "" then "localhost" else r.host) ++ r.requestURI ∧
      ∀ m, redirectHandler { r with method := m } = redirectHandler r := by
  refine ⟨rfl, ?_, fun m => rfl⟩
  simp [redirectHandler, hh]

/-- Witness for C6 at a concrete GET request with host and query, and the
empty-host fallback. -/
theorem redirectHandler_spec_witness :
    (redirectHandler ⟨"GET", "app.ts.net", "/p?q=1"⟩).status = 308 ∧
      (redirectHandler ⟨"GET", "app.ts.net", "/p?q=1"⟩).location
        = "https://app.ts.net/p?q=1" ∧
      (redirectHandler ⟨"GET", "", "/p"⟩).location = "https://localhost/p" := by
  refine ⟨(redirectHandler_spec ⟨"GET", "app.ts.net", "/p?q=1"⟩ (by decide)).1, ?_, ?_⟩
  · have h := (redirectHandler_spec ⟨"GET", "app.ts.net", "/p?q=1"⟩ (by decide)).2.1
    simpa using h
  · have h := (redirectHandler_spec ⟨"GET", "", "/p"⟩ (by decide)).2.1
    simpa using h

theorem recorder_bytes_run (evs : List RecorderEvent) (st : RecorderState) :
    (evs.foldl recorderStep st).bytes = st.bytes + writeBytes evs := by
  induction evs generalizing st with
  | nil => simp [writeBytes]
  | cons e t ih =>
    cases e with
    | writeHeader c => simp [List.foldl, recorderStep, ih, writeBytes]
    | write n =>
      simp only [List.foldl, recorderStep, ih, writeBytes]
      omega

theorem recorder_status_run (evs : List RecorderEvent) (st : RecorderState)
    (h : ∀ c, RecorderEvent.writeHeader c ∈ evs → c ≠ 0) :
    (evs.foldl recorderStep st).statusCode = expectedStatus evs st.statusCode := by
  induction evs generalizing st with
  | nil => simp [expectedStatus, lastWriteHeader, hasWrite]
  | cons e t ih =>
    cases e with
    | writeHeader c =>
      have hc : c ≠ 0 := h c (List.mem_cons_self _ _)
      have ht : ∀ c', RecorderEvent.writeHeader c' ∈ t → c' ≠ 0 :=
        fun c' hm => h c' (List.mem_cons_of_mem _ hm)
      have := ih { st with statusCode := c } ht
      simp only [List.foldl, recorderStep] at this ⊢
      rw [this]
      simp only [expectedStatus, lastWriteHeader]
      cases hl : lastWriteHeader t with
      | some c' => simp [hl]
      | none => simp [hl, hc]
    | write n =>
      have ht : ∀ c', RecorderEvent.writeHeader c' ∈ t → c' ≠ 0 :=
        fun c' hm => h c' (List.mem_cons_of_mem _ hm)
      have := ih { statusCode := if st.statusCode = 0 then 200 else st.statusCode,
                   bytes := st.bytes + n } ht
      simp only [List.foldl, recorderStep] at this ⊢
      rw [this]
      simp only [expectedStatus, lastWriteHeader, hasWrite]
      cases hl : lastWriteHeader t with
      | some c' => simp [hl]
      | none =>
        simp only [hl]
        by_cases h0 : st.statusCode = 0
        · simp [h0]
        · simp [h0]

theorem lastWriteHeader_mem (evs : List RecorderEvent) (c : Nat)
    (h : lastWriteHeader evs = some c) : RecorderEvent.writeHeader c ∈ evs := by
  induction evs with
  | nil => simp [lastWriteHeader] at h
  | cons e t ih =>
    cases e with
    | writeHeader c' =>
      simp only [lastWriteHeader] at h
      cases hl : lastWriteHeader t with
      | some c'' =>
        rw [hl] at h
        simp only [Option.getD] at h
        exact List.mem_cons_of_mem _ (ih (hl.trans (by injection h with h; rw [h])))
      | none =>
        rw [hl] at h
        simp only [Option.getD] at h
        injection h with h
        rw [← h]
        exact List.mem_cons_self _ _
    | write n =>
      simp only [lastWriteHeader] at h
      exact List.mem_cons_of_mem _ (ih h)

/-- C10 counterexample: a handler calling WriteHeader twice records the last
code, not the first — the claim's "argument of the first WriteHeader call"
fails at the history [WriteHeader 200, WriteHeader 500]. -/
theorem recorder_first_writeHeader_false :
    (recorderRun [RecorderEvent.writeHeader 200, RecorderEvent.writeHeader 500]).statusCode
        = 500 ∧
      firstWriteHeader [RecorderEvent.writeHeader 200, RecorderEvent.writeHeader 500]
        = some 200 ∧
      (500 : Nat) ≠ 200 := by
  decide

/-- C10 (amended): for any call history whose WriteHeader codes are nonzero
(Go's `http.ResponseWriter` panics on codes below 100), the recorded status
is the argument of the most recent WriteHeader call, or 200 if a Write
occurred before any WriteHeader; the recorded bytes equal the sum of the
counts successfully written to the underlying ResponseWriter; and after any
body write the status field is never left at zero. -/
theorem recorder_run_spec (evs : List RecorderEvent)
    (h : ∀ c, RecorderEvent.writeHeader c ∈ evs → c ≠ 0) :
    (recorderRun evs).bytes = writeBytes evs ∧
      (recorderRun evs).statusCode
        = (match lastWriteHeader evs with
           | some c => c
           | none => if hasWrite evs then 200 else 0) ∧
      (hasWrite evs = true → (recorderRun evs).statusCode ≠ 0) := by
  have hb := recorder_bytes_run evs {}
  have hs := recorder_status_run evs {} h
  refine ⟨by simpa using hb, ?_, ?_⟩
  · rw [recorderRun, hs]
    simp [expectedStatus]
  · intro hw
    rw [recorderRun, hs]
    simp only [expectedStatus]
    cases hl : lastWriteHeader evs with
    | some c => exact h c (lastWriteHeader_mem evs c hl)
    | none => simp [hw]

theorem getA_mem {α β : Type} [DecidableEq α] (l : List (α × β)) (k : α) (v : β)
    (h : getA l k = some v) : (k, v) ∈ l := by
  induction l with
  | nil => simp [getA] at h
  | cons kv t ih =>
    obtain ⟨k', v'⟩ := kv
    by_cases hk : k' = k
    · subst hk
      simp only [getA, if_pos rfl] at h
      injection h with h
      exact h ▸ List.mem_cons_self _ _
    · simp only [getA, if_neg hk] at h
      exact List.mem_cons_of_mem _ (ih h)

theorem serviceShortName_svc (r : String) :
    serviceShortName (serviceNameForRoute r) = r := rfl

theorem string_data_append (s t : String) : (s ++ t).data = s.data ++ t.data := rfl

theorem isPrefixOf_append_self {α : Type} [BEq α] [LawfulBEq α] (l m : List α) :
    List.isPrefixOf l (l ++ m) = true := by
  induction l with
  | nil => simp [List.isPrefixOf]
  | cons a t ih => simp [List.isPrefixOf, ih]

theorem goStartsWith_svc (r : String) :
    goStartsWith (serviceNameForRoute r) "svc:" = true := by
  unfold goStartsWith serviceNameForRoute
  rw [string_data_append]
  exact isPrefixOf_append_self _ _

theorem setWebHandler_getA_ne (sc : ServeConfig) (h : HTTPHandler) (host : String)
    (port : Nat) (m : String) (tls : Bool) (sfx : String) (s : String)
    (hne : host ≠ s) :
    getA (setWebHandler sc h host port m tls sfx).services s = getA sc.services s := by
  unfold setWebHandler
  by_cases hs : goStartsWith host "svc:" = true
  · simp only [hs, if_true]
    exact getA_setA_ne _ _ _ _ hne
  · simp only [hs]
    simp

theorem applyRouteServe_getA_ne (sfx redir : String) (hp hsp : Nat)
    (sc : ServeConfig) (rp : String × Nat) (s : String)
    (hne : serviceNameForRoute rp.1 ≠ s) :
    getA (applyRouteServe sfx redir hp hsp sc rp).services s = getA sc.services s := by
  unfold applyRouteServe
  by_cases h1 : hsp ≠ 0 <;> by_cases h2 : hp ≠ 0 <;>
    simp only [h1, h2, if_true, if_false, ite_true, ite_false,
      setWebHandler_getA_ne _ _ _ _ _ _ _ _ hne] <;> simp [h1, h2,
      setWebHandler_getA_ne _ _ _ _ _ _ _ _ hne]

theorem fold_applyRoute_getA_notin (sfx redir : String) (hp hsp : Nat)
    (l : List (String × Nat)) (sc : ServeConfig) (s : String)
    (hs : s ∉ l.map (fun rp => serviceNameForRoute rp.1)) :
    getA (l.foldl (applyRouteServe sfx redir hp hsp) sc).services s
      = getA sc.services s := by
  induction l generalizing sc with
  | nil => rfl
  | cons x t ih =>
    simp only [List.map, List.mem_cons, not_or] at hs
    rw [List.foldl_cons, ih _ hs.2, applyRouteServe_getA_ne _ _ _ _ _ _ _
      (fun he => hs.1 he.symm)]

theorem setWebHandler_getA_self (sc : ServeConfig) (h : HTTPHandler) (host : String)
    (port : Nat) (m : String) (tls : Bool) (sfx : String)
    (hsvc : goStartsWith host "svc:" = true) :
    getA (setWebHandler sc h host port m tls sfx).services host
      = some
          { tcp := setA ((getA sc.services host).getD {}).tcp port
              (if tls then { https := true } else { http := true }),
            web := setA ((getA sc.services host).getD {}).web
              (serviceShortName host ++ "." ++ sfx, port)
              { handlers := setA ((getA ((getA sc.services host).getD {}).web
                  (serviceShortName host ++ "." ++ sfx, port)).getD {}).handlers m h } } := by
  unfold setWebHandler
  simp only [hsvc, if_true]
  exact getA_setA_same _ _ _

theorem applyRouteServe_fresh_entry (sfx redir : String) (hp hsp : Nat)
    (sc : ServeConfig) (rp : String × Nat) (hne : hp ≠ hsp)
    (hfresh : getA sc.services (serviceNameForRoute rp.1) = none) :
    getA (applyRouteServe sfx redir hp hsp sc rp).services (serviceNameForRoute rp.1)
      = routeServiceEntry sfx redir hp hsp rp := by
  unfold applyRouteServe routeServiceEntry
  by_cases h2 : hp ≠ 0 <;> by_cases h1 : hsp ≠ 0
  · simp only [if_pos h1, if_pos h2]
    rw [setWebHandler_getA_self _ _ _ _ _ _ _ (goStartsWith_svc _),
      setWebHandler_getA_self _ _ _ _ _ _ _ (goStartsWith_svc _), hfresh]
    simp [getA, setA, serviceShortName_svc, Prod.mk.injEq, hne]
  · simp only [if_pos h2, if_neg h1]
    rw [setWebHandler_getA_self _ _ _ _ _ _ _ (goStartsWith_svc _), hfresh]
    simp [getA, setA, serviceShortName_svc]
  · simp only [if_pos h1, if_neg h2]
    rw [setWebHandler_getA_self _ _ _ _ _ _ _ (goStartsWith_svc _), hfresh]
    simp [getA, setA, serviceShortName_svc]
  · simp only [if_neg h1, if_neg h2]
    exact hfresh

theorem fold_applyRoute_lookup (sfx redir : String) (hp hsp : Nat) (r : String)
    (p : Nat) (l : List (String × Nat)) (sc : ServeConfig)
    (hm : (r, p) ∈ l)
    (hnd : (l.map (fun rp => serviceNameForRoute rp.1)).Nodup)
    (hfresh : getA sc.services (serviceNameForRoute r) = none)
    (hne : hp ≠ hsp) :
    getA (l.foldl (applyRouteServe sfx redir hp hsp) sc).services
        (serviceNameForRoute r)
      = routeServiceEntry sfx redir hp hsp (r, p) := by
  induction l generalizing sc with
  | nil => exact absurd hm (List.not_mem_nil _)
  | cons x t ih =>
    rw [List.map_cons, List.nodup_cons] at hnd
    rcases List.mem_cons.mp hm with hx | hx
    · subst hx
      rw [List.foldl_cons,
        fold_applyRoute_getA_notin _ _ _ _ _ _ _ hnd.1,
        applyRouteServe_fresh_entry _ _ _ _ _ _ hne hfresh]
    · have hxne : serviceNameForRoute x.1 ≠ serviceNameForRoute r := by
        intro he
        exact hnd.1 (he ▸ List.mem_map_of_mem (fun rp => serviceNameForRoute rp.1) hx)
      rw [List.foldl_cons]
      exact ih _ hx hnd.2
        (by rw [applyRouteServe_getA_ne _ _ _ _ _ _ _ hxne]; exact hfresh)

theorem hasAnyPlainHTTP_setWebHandler_tls (sc : ServeConfig) (h : HTTPHandler)
    (host : String) (port : Nat) (m sfx : String)
    (hfalse : hasAnyPlainHTTP sc = false) :
    hasAnyPlainHTTP (setWebHandler sc h host port m true sfx) = false := by
  unfold setWebHandler
  by_cases hs : goStartsWith host "svc:" = true
  · simp only [hs, if_true]
    unfold hasAnyPlainHTTP at hfalse ⊢
    rw [List.any_eq_false] at hfalse ⊢
    intro kv hkv
    rcases mem_setA _ _ _ _ hkv with hin | heq
    · exact hfalse _ hin
    · subst heq
      intro htv
      rw [List.any_eq_true] at htv
      obtain ⟨tv, htvm, hhttp⟩ := htv
      rcases mem_setA _ _ _ _ htvm with hin2 | heq2
      · cases hbase : getA sc.services host with
        | none => rw [hbase] at hin2; simp at hin2
        | some svc0 =>
          rw [hbase] at hin2
          have h3 := hfalse _ (getA_mem _ _ _ hbase)
          exact h3 (List.any_eq_true.mpr ⟨tv, hin2, hhttp⟩)
      · subst heq2
        simp at hhttp
  · simp only [hs]
    simpa using hfalse

theorem hasAnyPlainHTTP_applyRoute_zero (sfx redir : String) (hsp : Nat)
    (sc : ServeConfig) (rp : String × Nat)
    (hfalse : hasAnyPlainHTTP sc = false) :
    hasAnyPlainHTTP (applyRouteServe sfx redir 0 hsp sc rp) = false := by
  show hasAnyPlainHTTP (if hsp ≠ 0 then
      setWebHandler sc ⟨"http://127.0.0.1:" ++ natToString rp.2⟩
        (serviceNameForRoute rp.1) hsp "/" true sfx
    else sc) = false
  by_cases h1 : hsp ≠ 0
  · rw [if_pos h1]
    exact hasAnyPlainHTTP_setWebHandler_tls _ _ _ _ _ _ hfalse
  · rw [if_neg h1]
    exact hfalse

theorem buildServices_http0_noPlain (l : List (String × Nat)) (sfx redir : String)
    (hsp : Nat) :
    hasAnyPlainHTTP (buildServicesServeConfig l sfx redir 0 hsp) = false := by
  unfold buildServicesServeConfig
  have haux : ∀ (l' : List (String × Nat)) (sc : ServeConfig),
      hasAnyPlainHTTP sc = false →
      hasAnyPlainHTTP (l'.foldl (applyRouteServe sfx redir 0 hsp) sc) = false := by
    intro l'
    induction l' with
    | nil => intro sc h; exact h
    | cons x t ih =>
      intro sc h
      rw [List.foldl_cons]
      exact ih _ (hasAnyPlainHTTP_applyRoute_zero _ _ _ _ _ h)
  exact haux l {} rfl

/-- C1 counterexample: with HTTP port = HTTPS port = 443 (both nonzero), the
HTTPS handler overwrites the HTTP-port handler, so no handler proxying to the
shared redirect URL and no TLS-off port mode exists even though the HTTP port
is nonzero — the claim's "if and only if" fails. -/
theorem buildServicesServeConfig_equal_ports :
    (443 : Nat) ≠ 0 ∧
      anyHandlerWithProxy
          (buildServicesServeConfig [("app", 1000)] "ts.net" "http://127.0.0.1:9" 443 443)
          "http://127.0.0.1:9" = false ∧
      hasAnyPlainHTTP
          (buildServicesServeConfig [("app", 1000)] "ts.net" "http://127.0.0.1:9" 443 443)
        = false ∧
      svcWebProxy
          (buildServicesServeConfig [("app", 1000)] "ts.net" "http://127.0.0.1:9" 443 443)
          (serviceNameForRoute "app") ("app.ts.net", 443) "/"
        = some "http://127.0.0.1:1000" := by
  refine ⟨by decide, by decide, by decide, by decide⟩

/-- C1 (amended): for key-distinct route maps and distinct HTTP/HTTPS ports,
each route's service `svc:<r>` maps `<r>.<suffix>:<https_port>` at path `/`
to `http://127.0.0.1:<p>` with TLS termination whenever the HTTPS port is
nonzero; it maps `<r>.<suffix>:<http_port>` at `/` to the shared redirect URL
with TLS off whenever the HTTP port is nonzero; and an HTTP port of zero
yields no TLS-off entry anywhere.  (When the two ports coincide, the HTTPS
handler overwrites the HTTP one.) -/
theorem buildServicesServeConfig_spec (l : List (String × Nat))
    (sfx redir : String) (httpPort httpsPort : Nat) (r : String) (p : Nat)
    (hm : (r, p) ∈ l)
    (hnd : (l.map (fun rp => serviceNameForRoute rp.1)).Nodup)
    (hne : httpPort ≠ httpsPort) :
    (httpsPort ≠ 0 →
        svcWebProxy (buildServicesServeConfig l sfx redir httpPort httpsPort)
            (serviceNameForRoute r) (r ++ "." ++ sfx, httpsPort) "/"
          = some ("http://127.0.0.1:" ++ natToString p) ∧
        svcTCP (buildServicesServeConfig l sfx redir httpPort httpsPort)
            (serviceNameForRoute r) httpsPort
          = some { https := true, http := false }) ∧
      (httpPort ≠ 0 →
        svcWebProxy (buildServicesServeConfig l sfx redir httpPort httpsPort)
            (serviceNameForRoute r) (r ++ "." ++ sfx, httpPort) "/" = some redir ∧
        svcTCP (buildServicesServeConfig l sfx redir httpPort httpsPort)
            (serviceNameForRoute r) httpPort
          = some { https := false, http := true }) ∧
      (httpPort = 0 →
        hasAnyPlainHTTP (buildServicesServeConfig l sfx redir httpPort httpsPort)
          = false) := by
  have hkey := fold_applyRoute_lookup sfx redir httpPort httpsPort r p l {} hm hnd
    (by simp [getA]) hne
  refine ⟨fun h1 => ?_, fun h2 => ?_, fun h0 => ?_⟩
  · unfold svcWebProxy svcTCP
    unfold buildServicesServeConfig at hkey ⊢
    rw [hkey]
    unfold routeServiceEntry
    by_cases h2 : httpPort ≠ 0
    · simp only [if_pos h1, if_pos h2]
      simp [getA, Prod.mk.injEq, hne]
    · simp only [if_pos h1, if_neg h2]
      simp [getA]
  · unfold svcWebProxy svcTCP
    unfold buildServicesServeConfig at hkey ⊢
    rw [hkey]
    unfold routeServiceEntry
    by_cases h1 : httpsPort ≠ 0
    · simp only [if_pos h1, if_pos h2]
      simp [getA, Prod.mk.injEq, hne]
    · simp only [if_pos h2, if_neg h1]
      simp [getA]
  · subst h0
    exact buildServices_http0_noPlain l sfx redir httpsPort

/-- Witness for C1 (amended) at a concrete two-route map with ports 80/443. -/
theorem buildServicesServeConfig_spec_witness :
    svcWebProxy
        (buildServicesServeConfig [("app", 1000), ("api", 2000)] "ts.net"
          "http://127.0.0.1:9" 80 443)
        (serviceNameForRoute "app") ("app.ts.net", 443) "/"
      = some "http://127.0.0.1:1000" ∧
      svcWebProxy
          (buildServicesServeConfig [("app", 1000), ("api", 2000)] "ts.net"
            "http://127.0.0.1:9" 80 443)
          (serviceNameForRoute "app") ("app.ts.net", 80) "/"
        = some "http://127.0.0.1:9" := by
  have h := buildServicesServeConfig_spec [("app", 1000), ("api", 2000)] "ts.net"
    "http://127.0.0.1:9" 80 443 "app" 1000 (by decide) (by decide) (by decide)
  have e1 := (h.1 (by decide)).1
  have e2 := (h.2.1 (by decide)).1
  exact ⟨e1.trans (by rfl), e2.trans (by rfl)⟩

theorem mem_insStr (x a : String) (l : List String) :
    x ∈ insStr a l ↔ x = a ∨ x ∈ l := by
  induction l with
  | nil => simp [insStr]
  | cons b t ih =>
    unfold insStr
    by_cases h1 : a < b
    · simp [h1]
    · by_cases h2 : a = b
      · subst h2
        rw [if_neg h1, if_pos rfl]
        constructor
        · exact Or.inr
        · rintro (hx | hx)
          · exact hx ▸ List.mem_cons_self _ _
          · exact hx
      · simp only [if_neg h1, if_neg h2, List.mem_cons, ih]
        tauto

theorem sorted_insStr (a : String) (l : List String) (h : l.Sorted (· < ·)) :
    (insStr a l).Sorted (· < ·) := by
  induction l with
  | nil => simp [insStr]
  | cons b t ih =>
    rw [List.sorted_cons] at h
    unfold insStr
    by_cases h1 : a < b
    · rw [if_pos h1, List.sorted_cons]
      refine ⟨?_, List.sorted_cons.mpr h⟩
      intro x hx
      rcases List.mem_cons.mp hx with hx | hx
      · exact hx ▸ h1
      · exact lt_trans h1 (h.1 x hx)
    · by_cases h2 : a = b
      · rw [if_neg h1, if_pos h2]
        exact List.sorted_cons.mpr h
      · rw [if_neg h1, if_neg h2, List.sorted_cons]
        refine ⟨?_, ih h.2⟩
        intro x hx
        rcases (mem_insStr x a t).mp hx with hx | hx
        · subst hx
          exact lt_of_le_of_ne (le_of_not_lt h1) (Ne.symm h2)
        · exact h.1 x hx

theorem mem_canonSorted (x : String) (l : List String) :
    x ∈ canonSorted l ↔ x ∈ l := by
  induction l with
  | nil => simp [canonSorted]
  | cons a t ih =>
    show x ∈ insStr a (canonSorted t) ↔ _
    rw [mem_insStr, ih, List.mem_cons]

theorem sorted_canonSorted (l : List String) : (canonSorted l).Sorted (· < ·) := by
  induction l with
  | nil => simp [canonSorted]
  | cons a t ih => exact sorted_insStr a (canonSorted t) ih

theorem sorted_lt_ext (l₁ : List String) : ∀ (l₂ : List String),
    l₁.Sorted (· < ·) → l₂.Sorted (· < ·) → (∀ x, x ∈ l₁ ↔ x ∈ l₂) → l₁ = l₂ := by
  induction l₁ with
  | nil =>
    intro l₂ _ _ hm
    cases l₂ with
    | nil => rfl
    | cons b t => exact absurd ((hm b).mpr (List.mem_cons_self _ _)) (List.not_mem_nil _)
  | cons a t₁ ih =>
    intro l₂ h₁ h₂ hm
    cases l₂ with
    | nil => exact absurd ((hm a).mp (List.mem_cons_self _ _)) (List.not_mem_nil _)
    | cons b t₂ =>
      rw [List.sorted_cons] at h₁ h₂
      have hab : a = b := by
        rcases List.mem_cons.mp ((hm a).mp (List.mem_cons_self _ _)) with h | h
        · exact h
        · rcases List.mem_cons.mp ((hm b).mpr (List.mem_cons_self _ _)) with h' | h'
          · exact h'.symm
          · exact absurd (lt_trans (h₁.1 b h') (h₂.1 a h)) (lt_irrefl a)
      subst hab
      have htails : ∀ x, x ∈ t₁ ↔ x ∈ t₂ := by
        intro x
        constructor
        · intro hx
          rcases List.mem_cons.mp ((hm x).mp (List.mem_cons_of_mem _ hx)) with h | h
          · exact absurd (h ▸ h₁.1 x hx) (lt_irrefl x)
          · exact h
        · intro hx
          rcases List.mem_cons.mp ((hm x).mpr (List.mem_cons_of_mem _ hx)) with h | h
          · exact absurd (h ▸ h₂.1 x hx) (lt_irrefl x)
          · exact h
      rw [ih t₂ h₁.2 h₂.2 htails]

theorem canonSorted_stable (l d : List String) :
    canonSorted (canonSorted (l ++ d) ++ d) = canonSorted (l ++ d) := by
  refine sorted_lt_ext _ _ (sorted_canonSorted _) (sorted_canonSorted _) ?_
  intro x
  rw [mem_canonSorted, List.mem_append, mem_canonSorted, List.mem_append]
  tauto

theorem ensureAdvertise_after (cp : ControlPlane) (desired : List String) :
    (ensureAdvertiseServices cp desired).1.advertiseServices
      = canonSorted (cp.advertiseServices ++ desired) := by
  unfold ensureAdvertiseServices
  by_cases h : canonSorted (cp.advertiseServices ++ desired) = cp.advertiseServices
  · simp [h]
  · simp [h]

theorem ensureAdvertise_flag (cp : ControlPlane) (desired : List String) :
    (ensureAdvertiseServices cp desired).2 = false
      ↔ canonSorted (cp.advertiseServices ++ desired) = cp.advertiseServices := by
  unfold ensureAdvertiseServices
  by_cases h : canonSorted (cp.advertiseServices ++ desired) = cp.advertiseServices
  · simp [h]
  · simp [h]

theorem applyTS_adv (cp : ControlPlane) (names : List String)
    (rp : List (String × Nat)) (sfx redir : String) (hp hsp : Nat) :
    (applyTailscaleServeConfig cp names rp sfx redir hp hsp).1.advertiseServices
      = canonSorted (cp.advertiseServices ++ names) := by
  show (ensureAdvertiseServices cp names).1.advertiseServices = _
  exact ensureAdvertise_after cp names

/-- C2 counterexample: on the second back-to-back reconciliation the code
still issues a SetServeConfig write — `applyTailscaleServeConfig` always
calls SetServeConfig, with no no-diff short-circuit. -/
theorem reconcile_second_run_writes_serve :
    (applyTailscaleServeConfig
        (applyTailscaleServeConfig {} ["svc:app"] [("app", 1000)] "ts.net"
          "http://127.0.0.1:9" 80 443).1
        ["svc:app"] [("app", 1000)] "ts.net" "http://127.0.0.1:9" 80 443).2.2
      = true := rfl

/-- C2 (amended): running the startup reconciliation twice back-to-back, the
second run performs no EditPrefs write — the advertised-services merge
short-circuits because the list already equals the sorted merged set — but it
does perform a SetServeConfig write, since `applyTailscaleServeConfig`
unconditionally issues one (carrying over the ETag). -/
theorem reconcile_idempotent_prefs (cp : ControlPlane) (names : List String)
    (rp : List (String × Nat)) (sfx redir : String) (hp hsp : Nat) :
    (applyTailscaleServeConfig
        (applyTailscaleServeConfig cp names rp sfx redir hp hsp).1
        names rp sfx redir hp hsp).2.1 = false ∧
      (applyTailscaleServeConfig
          (applyTailscaleServeConfig cp names rp sfx redir hp hsp).1
          names rp sfx redir hp hsp).2.2 = true := by
  constructor
  · show (ensureAdvertiseServices _ names).2 = false
    rw [ensureAdvertise_flag, applyTS_adv, canonSorted_stable]
  · rfl

theorem go_closed_char (steps : List RouteEnv) :
    ∀ (st : NetState) (acc : List (String × Nat)),
      (buildRouteRuntimesGo steps st acc).1.closed = st.closed ∨
        ∃ n p, (buildRouteRuntimesGo steps st acc).1.closed = st.closed ++ [(n, p)] ∧
          (buildRouteRuntimesGo steps st acc).1.opened.getLast? = some (n, p) := by
  induction steps with
  | nil => intro st acc; exact Or.inl rfl
  | cons e rest ih =>
    intro st acc
    simp only [buildRouteRuntimesGo]
    by_cases hp : e.proxyOk = false
    · rw [if_pos hp]; exact Or.inl rfl
    · rw [if_neg hp]
      cases hl : e.listen with
      | err => exact Or.inl rfl
      | ok port tcp =>
        dsimp only
        by_cases ht : tcp = false
        · rw [if_pos ht]
          refine Or.inr ⟨e.name, port, rfl, ?_⟩
          show (st.opened ++ [(e.name, port)]).getLast? = _
          exact List.getLast?_concat _
        · rw [if_neg ht]
          exact ih _ _

theorem go_err (steps : List RouteEnv) :
    ∀ (st : NetState) (acc : List (String × Nat)),
      (∃ e ∈ steps, stepFails e = true) →
      (buildRouteRuntimesGo steps st acc).2.isOk = false := by
  induction steps with
  | nil =>
    intro st acc h
    rcases h with ⟨e, he, _⟩
    exact absurd he (List.not_mem_nil _)
  | cons e rest ih =>
    intro st acc h
    simp only [buildRouteRuntimesGo]
    by_cases hp : e.proxyOk = false
    · rw [if_pos hp]; rfl
    · rw [if_neg hp]
      cases hl : e.listen with
      | err => rfl
      | ok port tcp =>
        dsimp only
        by_cases ht : tcp = false
        · rw [if_pos ht]; rfl
        · rw [if_neg ht]
          apply ih
          rcases h with ⟨e', he', hf⟩
          rcases List.mem_cons.mp he' with he' | he'
          · subst he'
            exfalso
            unfold stepFails at hf
            rw [hl] at hf
            have hpt : e'.proxyOk = true := by
              cases hpe : e'.proxyOk
              · exact absurd hpe hp
              · rfl
            have htt : tcp = true := by
              cases hte : tcp
              · exact absurd hte ht
              · rfl
            rw [hpt, htt] at hf
            simp at hf
          · exact ⟨e', he', hf⟩

/-- C3 counterexample: with two routes, where the second route's loopback
listen fails, buildRouteRuntimes returns an error but the listener already
opened for the first route is not closed. -/
theorem buildRouteRuntimes_leak :
    (buildRouteRuntimes [⟨"a", true, ListenResult.ok 1001 true⟩,
        ⟨"b", true, ListenResult.err⟩]).2
      = Except.error "route b: listen localhost" ∧
      ("a", 1001) ∈ (buildRouteRuntimes [⟨"a", true, ListenResult.ok 1001 true⟩,
        ⟨"b", true, ListenResult.err⟩]).1.opened ∧
      ("a", 1001) ∉ (buildRouteRuntimes [⟨"a", true, ListenResult.ok 1001 true⟩,
        ⟨"b", true, ListenResult.err⟩]).1.closed := by
  refine ⟨rfl, by decide, by decide⟩

/-- C3 (amended): when any step fails, buildRouteRuntimes returns an error,
and the only listener it can have closed is the most recently opened one
(the address-type-mismatch case, line 401) — at most one listener is closed,
and every earlier route's listener remains open for the caller to leak. -/
theorem buildRouteRuntimes_spec (steps : List RouteEnv)
    (hfail : ∃ e ∈ steps, stepFails e = true) :
    (buildRouteRuntimes steps).2.isOk = false ∧
      (buildRouteRuntimes steps).1.closed.length ≤ 1 ∧
      ∀ x ∈ (buildRouteRuntimes steps).1.closed,
        (buildRouteRuntimes steps).1.opened.getLast? = some x := by
  refine ⟨go_err steps {} [] hfail, ?_, ?_⟩
  · rcases go_closed_char steps {} [] with h | ⟨n, p, h, _⟩
    · have h' : (buildRouteRuntimes steps).1.closed = [] := h
      rw [h']
      simp
    · have h' : (buildRouteRuntimes steps).1.closed = [(n, p)] := h
      rw [h']
      simp
  · intro x hx
    rcases go_closed_char steps {} [] with h | ⟨n, p, h, hlast⟩
    · have h' : (buildRouteRuntimes steps).1.closed = [] := h
      rw [h'] at hx
      exact absurd hx (List.not_mem_nil _)
    · have h' : (buildRouteRuntimes steps).1.closed = [(n, p)] := h
      rw [h'] at hx
      have hxe : x = (n, p) := by simpa using hx
      exact hxe ▸ hlast

/-- Witness for C3 (amended) at a scenario whose second route's listener has
an unexpected address type: that one listener is closed, the first stays
open. -/
theorem buildRouteRuntimes_spec_witness :
    (buildRouteRuntimes [⟨"a", true, ListenResult.ok 7 true⟩,
        ⟨"b", true, ListenResult.ok 8 false⟩]).2.isOk = false ∧
      (buildRouteRuntimes [⟨"a", true, ListenResult.ok 7 true⟩,
        ⟨"b", true, ListenResult.ok 8 false⟩]).1.closed.length ≤ 1 := by
  have h := buildRouteRuntimes_spec
    [⟨"a", true, ListenResult.ok 7 true⟩, ⟨"b", true, ListenResult.ok 8 false⟩]
    (by decide)
  exact ⟨h.1, h.2.1⟩

theorem getA_eq_none_keys {α β : Type} [DecidableEq α] (l : List (α × β)) (k : α)
    (h : getA l k = none) : ∀ kv ∈ l, kv.1 ≠ k := by
  induction l with
  | nil => intro kv hkv; exact absurd hkv (List.not_mem_nil _)
  | cons x t ih =>
    obtain ⟨k', v'⟩ := x
    by_cases hk : k' = k
    · simp [getA, hk] at h
    · simp only [getA, if_neg hk] at h
      intro kv hkv
      rcases List.mem_cons.mp hkv with hkv | hkv
      · exact hkv ▸ hk
      · exact ih h kv hkv

theorem mem_key_isSome {α β : Type} [DecidableEq α] (l : List (α × β)) (kv : α × β)
    (h : kv ∈ l) : (getA l kv.1).isSome = true := by
  induction l with
  | nil => exact absurd h (List.not_mem_nil _)
  | cons x t ih =>
    obtain ⟨k', v'⟩ := x
    by_cases hk : k' = kv.1
    · simp [getA, hk]
    · simp only [getA, if_neg hk]
      rcases List.mem_cons.mp h with h1 | h1
      · exact absurd (by rw [h1]) hk
      · exact ih h1

theorem cleanupStep_char (l : List (String × ServiceConfig)) (b : Bool) (sn : String) :
    (if (getA l sn).isSome then (eraseA l sn, true) else (l, b))
      = (l.filter (fun kv => decide (kv.1 ≠ sn)), b || (getA l sn).isSome) := by
  by_cases h : (getA l sn).isSome
  · rw [if_pos h, h]
    exact congrArg (fun x => (eraseA l sn, x)) (Bool.or_true b).symm
  · rw [if_neg h]
    have hnone : getA l sn = none := by
      cases hx : getA l sn
      · rfl
      · rw [hx] at h; simp at h
    have hkeys := getA_eq_none_keys l sn hnone
    have hfilter : l.filter (fun kv => decide (kv.1 ≠ sn)) = l :=
      List.filter_eq_self.mpr (fun kv hkv => decide_eq_true (hkeys kv hkv))
    rw [hfilter, hnone]
    simp

theorem cleanupLoop_char (g : List String) :
    ∀ (svcs : List (String × ServiceConfig)) (b : Bool),
      g.foldl
          (fun acc sn => if (getA acc.1 sn).isSome then (eraseA acc.1 sn, true) else acc)
          (svcs, b)
        = (svcs.filter (fun kv => decide (kv.1 ∉ g)),
           b || g.any (fun sn => (getA svcs sn).isSome)) := by
  induction g with
  | nil =>
    intro svcs b
    have hf : svcs.filter (fun kv => decide (kv.1 ∉ ([] : List String))) = svcs :=
      List.filter_eq_self.mpr (fun kv _ => by simp)
    simp only [List.foldl_nil, List.any_nil, Bool.or_false, hf]
  | cons sn g' ih =>
    intro svcs b
    rw [List.foldl_cons, cleanupStep_char, ih]
    have hlist : (svcs.filter (fun kv => decide (kv.1 ≠ sn))).filter
          (fun kv => decide (kv.1 ∉ g'))
        = svcs.filter (fun kv => decide (kv.1 ∉ sn :: g')) := by
      rw [List.filter_filter]
      apply List.filter_congr
      intro kv _
      by_cases h1 : kv.1 = sn <;> simp [h1, List.mem_cons]
    have hflag : ((b || (getA svcs sn).isSome)
          || g'.any (fun s =>
              (getA (svcs.filter (fun kv => decide (kv.1 ≠ sn))) s).isSome))
        = (b || (sn :: g').any (fun s => (getA svcs s).isSome)) := by
      rw [List.any_cons]
      by_cases h0 : (getA svcs sn).isSome
      · rw [h0]
        simp
      · have hnone : getA svcs sn = none := by
          cases hx : getA svcs sn
          · rfl
          · rw [hx] at h0; simp at h0
        have hkeys := getA_eq_none_keys svcs sn hnone
        have hfilter : svcs.filter (fun kv => decide (kv.1 ≠ sn)) = svcs :=
          List.filter_eq_self.mpr (fun kv hkv => decide_eq_true (hkeys kv hkv))
        rw [hfilter, hnone]
        simp
    show ((svcs.filter (fun kv => decide (kv.1 ≠ sn))).filter
          (fun kv => decide (kv.1 ∉ g')),
        (b || (getA svcs sn).isSome)
          || g'.any (fun s =>
              (getA (svcs.filter (fun kv => decide (kv.1 ≠ sn))) s).isSome)) = _
    rw [hlist, hflag]

/-- C7: shutdown reconciliation removes only what the gateway added: the
advertised list keeps exactly the names outside the gateway's list, in their
original order; a nil serve config is left untouched without a write; and for
a present serve config, the resulting services are exactly the original ones
whose keys are not the gateway's, the ETag is preserved, and a SetServeConfig
write happens iff at least one of the gateway's keys was present. -/
theorem bestEffortCleanup_frame (cp : ControlPlane) (g : List String) :
    (bestEffortCleanupServeConfig cp g).1.advertiseServices
        = cp.advertiseServices.filter (fun s => decide (s ∉ g)) ∧
      (cp.serve = none → (bestEffortCleanupServeConfig cp g).1.serve = none ∧
        (bestEffortCleanupServeConfig cp g).2.2 = false) ∧
      (∀ cur, cp.serve = some cur →
        ∃ sc', (bestEffortCleanupServeConfig cp g).1.serve = some sc' ∧
          sc'.services = cur.services.filter (fun kv => decide (kv.1 ∉ g)) ∧
          sc'.etag = cur.etag ∧
          ((bestEffortCleanupServeConfig cp g).2.2 = true
            ↔ ∃ sn ∈ g, (getA cur.services sn).isSome = true)) := by
  have hadv : (removeAdvertiseServices cp g).1.advertiseServices
      = cp.advertiseServices.filter (fun s => decide (s ∉ g)) := by
    unfold removeAdvertiseServices
    by_cases h : cp.advertiseServices.filter (fun s => decide (s ∉ g))
        = cp.advertiseServices
    · rw [if_pos h, h]
    · rw [if_neg h]
  have hserve : (removeAdvertiseServices cp g).1.serve = cp.serve := by
    unfold removeAdvertiseServices
    by_cases h : cp.advertiseServices.filter (fun s => decide (s ∉ g))
        = cp.advertiseServices
    · rw [if_pos h]
    · rw [if_neg h]
  simp only [bestEffortCleanupServeConfig, cleanupLoop]
  cases hcur : (removeAdvertiseServices cp g).1.serve with
  | none =>
    refine ⟨hadv, fun _ => ⟨hcur, rfl⟩, fun cur hc => ?_⟩
    rw [hserve, hc] at hcur
    cases hcur
  | some cur0 =>
    dsimp only
    rw [cleanupLoop_char g cur0.services false]
    rw [hserve] at hcur
    by_cases hch : (false || g.any (fun sn => (getA cur0.services sn).isSome)) = true
    · rw [if_pos hch]
      refine ⟨hadv, fun hc => ?_, fun cur hc => ?_⟩
      · rw [hc] at hcur; cases hcur
      · rw [hc] at hcur
        injection hcur with hcur
        subst hcur
        refine ⟨_, rfl, rfl, rfl, ?_⟩
        simp only [Bool.false_or, List.any_eq_true] at hch
        exact ⟨fun _ => hch, fun _ => rfl⟩
    · rw [if_neg hch]
      refine ⟨hadv, fun hc => ?_, fun cur hc => ?_⟩
      · rw [hc] at hcur; cases hcur
      · rw [hc] at hcur
        injection hcur with hcur
        subst hcur
        simp only [Bool.false_or] at hch
        have hany : cur.services.filter (fun kv => decide (kv.1 ∉ g))
            = cur.services := by
          apply List.filter_eq_self.mpr
          intro kv hkv
          apply decide_eq_true
          intro hmem
          apply hch
          rw [List.any_eq_true]
          exact ⟨kv.1, hmem, mem_key_isSome _ _ hkv⟩
        refine ⟨cur, hserve.trans hc, hany.symm, rfl, ?_⟩
        constructor
        · intro hfalse; cases hfalse
        · intro hex
          obtain ⟨sn, hsn, hsome⟩ := hex
          exact absurd (List.any_eq_true.mpr ⟨sn, hsn, hsome⟩) hch

/-- Witness for C7 at a concrete state holding one gateway entry and one
operator-added entry. -/
theorem bestEffortCleanup_frame_witness :
    (bestEffortCleanupServeConfig
        ⟨["other", "svc:app"], some ⟨[("svc:app", ⟨[], []⟩), ("other2", ⟨[], []⟩)], "e"⟩⟩
        ["svc:app"]).1.advertiseServices = ["other"] ∧
      (bestEffortCleanupServeConfig
          ⟨["other", "svc:app"], some ⟨[("svc:app", ⟨[], []⟩), ("other2", ⟨[], []⟩)], "e"⟩⟩
          ["svc:app"]).2.2 = true := by
  have h := bestEffortCleanup_frame
    ⟨["other", "svc:app"], some ⟨[("svc:app", ⟨[], []⟩), ("other2", ⟨[], []⟩)], "e"⟩⟩
    ["svc:app"]
  refine ⟨h.1.trans (by decide), ?_⟩
  obtain ⟨sc', h1, h2, h3, h4⟩ := h.2.2 _ rfl
  exact h4.mpr ⟨"svc:app", by simp, by decide⟩

/-- Witness for C10 at the history [Write 5, WriteHeader 404, Write 3]. -/
theorem recorder_run_spec_witness :
    (recorderRun [RecorderEvent.write 5, RecorderEvent.writeHeader 404,
        RecorderEvent.write 3]).bytes = 8 ∧
      (recorderRun [RecorderEvent.write 5, RecorderEvent.writeHeader 404,
        RecorderEvent.write 3]).statusCode = 404 := by
  have h := recorder_run_spec
    [RecorderEvent.write 5, RecorderEvent.writeHeader 404, RecorderEvent.write 3]
    (by
      intro c hc
      simp only [List.mem_cons, List.not_mem_nil, or_false] at hc
      rcases hc with h1 | h1 | h1 <;> simp_all)
  exact ⟨h.1, by simpa using h.2.1⟩

end TSGW
